import Mathlib

/-!
Shallow embedding of the quad-channel DAC driver (`pi-code/communicate.py`
and `pi-code/zeroed.py`): register encoding, waveform sampling, the update
loop's fault policy, the shutdown zeroing path, and the single-channel
zeroing utility.  Python floats are idealised as real numbers; Python's
arbitrary-precision integers are `ℤ`/`ℕ`.
-/

namespace WheelchairDAC

/-- Identifier of one of the four DAC output channels. -/
inductive Channel where
  | A
  | B
  | C
  | D
deriving DecidableEq

/-- Device bus address of the MCP4728 (`MCP4728_ADDRESS = 0x60`). -/
def MCP4728_ADDRESS : ℕ := 0x60

/-- Sequential-write command byte (`SEQ_WRITE_COMMAND = 0b01000000`). -/
def SEQ_WRITE_COMMAND : ℕ := 0b01000000

/-- Two-bit channel selector (`CHANNEL_MAP`). -/
def CHANNEL_MAP : Channel → ℕ
  | .A => 0b00
  | .B => 0b01
  | .C => 0b10
  | .D => 0b11

/-- Supply voltage of the DAC (`VDD = 5.0`). -/
noncomputable def VDD : ℝ := 5.0

/-- Configured per-channel sine frequencies (`CHANNEL_FREQUENCIES`), all 0.01 Hz. -/
noncomputable def CHANNEL_FREQUENCIES : Channel → ℝ
  | .A => 0.01
  | .B => 0.01
  | .C => 0.01
  | .D => 0.01

/-- Numeric value of a configuration flag: the source stores `VREF_MODE` and
`GAIN_MODE` as the integers 0 or 1; we carry them as booleans and take the
integer view where the source does bit arithmetic. -/
def bit : Bool → ℕ
  | true => 1
  | false => 0

/-- Most significant data byte for one channel, exactly as built in
`communicate.py` lines 96-100: `(VREF_MODE & 0x01) << 7 | (0 & 0x01) << 6 |
(0 & 0x01) << 5 | (GAIN_MODE & 0x01) << 4 | ((digital_value >> 8) & 0x0F)`. -/
def data_msb (ref gain : Bool) (dv : ℕ) : ℕ :=
  (bit ref &&& 0x01) <<< 7 ||| (0 &&& 0x01) <<< 6 ||| (0 &&& 0x01) <<< 5 |||
    (bit gain &&& 0x01) <<< 4 ||| ((dv >>> 8) &&& 0x0F)

/-- Least significant data byte for one channel (`digital_value & 0xFF`). -/
def data_lsb (dv : ℕ) : ℕ := dv &&& 0xFF

/-- Arithmetic form of `data_msb`: the or-chain of disjoint bit fields is a sum. -/
theorem data_msb_eq (ref gain : Bool) (dv : ℕ) :
    data_msb ref gain dv = 128 * bit ref + 16 * bit gain + dv / 256 % 16 := by
  have hmod : dv >>> 8 &&& 15 = dv / 256 % 16 := by
    rw [Nat.shiftRight_eq_div_pow]
    have h := Nat.and_pow_two_sub_one_eq_mod (dv / 2 ^ 8) 4
    norm_num at h ⊢
    exact h
  have m_lt : dv / 256 % 16 < 16 := Nat.mod_lt _ (by norm_num)
  have h16 : 16 ||| dv / 256 % 16 = 16 + dv / 256 % 16 := by
    have h := Nat.mul_add_lt_is_or (show dv / 256 % 16 < 2 ^ 4 by omega) 1
    norm_num at h
    exact h.symm
  have h128 : 128 ||| dv / 256 % 16 = 128 + dv / 256 % 16 := by
    have h := Nat.mul_add_lt_is_or (show dv / 256 % 16 < 2 ^ 4 by omega) 8
    norm_num at h
    exact h.symm
  have h144 : 144 ||| dv / 256 % 16 = 144 + dv / 256 % 16 := by
    have h := Nat.mul_add_lt_is_or (show dv / 256 % 16 < 2 ^ 4 by omega) 9
    norm_num at h
    exact h.symm
  rcases ref with _ | _ <;> rcases gain with _ | _ <;>
    simp only [data_msb, bit, Nat.zero_and, Nat.and_self, Nat.zero_shiftLeft,
      Nat.zero_or, Nat.or_zero, hmod]
  · omega
  · rw [show ((1 : ℕ) <<< 4) = 16 by decide, h16]
  · rw [show ((1 : ℕ) <<< 7) = 128 by decide, h128]
  · rw [show ((1 : ℕ) <<< 7 ||| 1 <<< 4) = 144 by decide, h144]

/-- Effective reference voltage, `communicate.py` line 87:
`v_ref = VDD if VREF_MODE == 0 else 2.048 * (2 if GAIN_MODE == 1 else 1)`. -/
noncomputable def v_ref (vdd : ℝ) (ref gain : Bool) : ℝ :=
  if ref then 2.048 * (if gain then 2 else 1) else vdd

/-- Sequential clamping of `communicate.py` lines 90-91:
`if voltage > v_ref: voltage = v_ref` then `if voltage < 0: voltage = 0`. -/
noncomputable def clampedVoltage (voltage vref : ℝ) : ℝ :=
  let v1 := if voltage > vref then vref else voltage
  if v1 < 0 then 0 else v1

/-- Python's `int(x)` on a float: truncation toward zero. -/
noncomputable def pyInt (x : ℝ) : ℤ :=
  if 0 ≤ x then ⌊x⌋ else ⌈x⌉

/-- Digital register value, `communicate.py` line 93:
`digital_value = int((voltage / v_ref) * 4095)` applied to the clamped voltage. -/
noncomputable def digital_value (voltage vdd : ℝ) (ref gain : Bool) : ℤ :=
  pyInt (clampedVoltage voltage (v_ref vdd ref gain) / v_ref vdd ref gain * 4095)

/-- Register encoder: the `(data_msb, data_lsb)` byte pair produced for one
channel by `communicate.py` lines 87-101.  On the domain of the claims the
digital value is nonnegative, so carrying it into `ℕ` is faithful. -/
noncomputable def encode (voltage vdd : ℝ) (ref gain : Bool) : ℕ × ℕ :=
  (data_msb ref gain (digital_value voltage vdd ref gain).toNat,
    data_lsb (digital_value voltage vdd ref gain).toNat)

/-- Waveform generator, `communicate.py` lines 82-84:
`amplitude = VDD / 2`, `offset = VDD / 2`,
`voltage = amplitude * sin(2 * pi * frequency * elapsed_time) + offset`. -/
noncomputable def sample (frequency elapsedTime vdd : ℝ) : ℝ :=
  vdd / 2 * Real.sin (2 * Real.pi * frequency * elapsedTime) + vdd / 2

/-- Reading the reference-mode flag back out of an encoded MSB (bit 7),
following the MSB layout stated in the spec. -/
def decodeRef (msb : ℕ) : Bool := msb.testBit 7

/-- Reading the gain-mode flag back out of an encoded MSB (bit 4). -/
def decodeGain (msb : ℕ) : Bool := msb.testBit 4

/-- Reading the 12-bit digital value back out of an encoded byte pair:
`((msb & 0xF) << 8) | lsb`. -/
def decodeDv (msb lsb : ℕ) : ℕ := ((msb &&& 0xF) <<< 8) ||| lsb

/-- Per-channel target voltage of one tick at elapsed time `t`. -/
noncomputable def tick_voltage (c : Channel) (t : ℝ) : ℝ :=
  sample (CHANNEL_FREQUENCIES c) t VDD

/-- Byte pair a tick produces for channel `c` at elapsed time `t`; the
configured settings are `VREF_MODE = 0`, `GAIN_MODE = 0`. -/
noncomputable def tick_bytes (c : Channel) (t : ℝ) : List ℕ :=
  [(encode (tick_voltage c t) VDD false false).1,
    (encode (tick_voltage c t) VDD false false).2]

/-- Fixed channel visiting order of the tick loop (`channel_order`). -/
def channel_order : List Channel := [.A, .B, .C, .D]

/-- Payload of one tick, `communicate.py` lines 72-104: starting from the
empty list, each channel in order A,B,C,D appends its two data bytes. -/
noncomputable def i2c_payload (t : ℝ) : List ℕ :=
  channel_order.foldl (fun acc c => acc ++ tick_bytes c t) []

/-- Shutdown MSB for one channel, `communicate.py` line 133:
`(VREF_MODE & 0x01) << 7 | (GAIN_MODE & 0x01) << 4`. -/
def shutdown_msb (ref gain : Bool) : ℕ :=
  (bit ref &&& 0x01) <<< 7 ||| (bit gain &&& 0x01) <<< 4

/-- Zero-volt payload built by the cleanup block, `communicate.py` lines
130-135: for each of the 4 channels append the shutdown MSB and `0`. -/
def zero_volt_payload (ref gain : Bool) : List ℕ :=
  (List.range 4).foldl (fun acc _ => acc ++ [shutdown_msb ref gain, 0]) []

/-- State of the update loop: `running first_run` carries the `first_run`
flag; `faulted` is the terminated state reached by the `break` on a failed
first transaction. -/
inductive SchedState where
  | running (first_run : Bool)
  | faulted
deriving DecidableEq

/-- One loop iteration's effect on the scheduler state, given whether the
tick's bus transaction succeeded (`communicate.py` lines 106-117): success
clears `first_run`; an `IOError` breaks the loop only when `first_run` is
still set, otherwise the loop continues unchanged. -/
def schedStep : SchedState → Bool → SchedState
  | .running first_run, ok =>
      if ok then .running false
      else if first_run then .faulted else .running first_run
  | .faulted, _ => .faulted

/-- Scheduler state after processing a finite list of tick outcomes,
starting from `running true` (`first_run = True`). -/
def runSched (outcomes : List Bool) : SchedState :=
  outcomes.foldl schedStep (.running true)

/-- Observable actions of the process: one bus transaction (address, command
byte, payload), one diagnostic report, or releasing the bus handle. -/
inductive Event where
  | txn (addr cmd : ℕ) (payload : List ℕ)
  | report
  | busClose
deriving DecidableEq

/-- Transactions issued by the update loop over a finite list of tick
outcomes: each iteration issues exactly one sequential write; a failure
breaks out only while `first_run` is set.  `ts i` is the elapsed time of
tick `i`. -/
noncomputable def loopEvents (ts : ℕ → ℝ) : List Bool → ℕ → Bool → List Event
  | [], _, _ => []
  | ok :: rest, i, first_run =>
      .txn MCP4728_ADDRESS SEQ_WRITE_COMMAND (i2c_payload (ts i)) ::
        (if ok then loopEvents ts rest (i + 1) false
         else if first_run then [] else loopEvents ts rest (i + 1) first_run)

/-- Events of the `finally` block, `communicate.py` lines 126-142: one
best-effort zeroing transaction, a diagnostic if it raised `IOError`, then
`bus.close()`. -/
def shutdownEvents (ref gain : Bool) (shutdownOk : Bool) : List Event :=
  [.txn MCP4728_ADDRESS SEQ_WRITE_COMMAND (zero_volt_payload ref gain)] ++
    (if shutdownOk then [] else [.report]) ++ [.busClose]

/-- Whole-process event trace once the bus handle is acquired: the loop runs
over `outcomes` (exhaustion models the external interrupt; a leading failure
models the first-tick fault) and the `finally` block always follows. -/
noncomputable def mainTrace (ts : ℕ → ℝ) (outcomes : List Bool)
    (ref gain shutdownOk : Bool) : List Event :=
  loopEvents ts outcomes 0 true ++ shutdownEvents ref gain shutdownOk

/-- Discriminator for the bus-release event. -/
def isBusClose : Event → Bool
  | .busClose => true
  | _ => false

/-- Discriminator for bus transactions. -/
def isTxn : Event → Bool
  | .txn _ _ _ => true
  | _ => false

/-- Address of a transaction event (0 otherwise). -/
def txnAddr : Event → ℕ
  | .txn a _ _ => a
  | _ => 0

/-- Command byte of a transaction event (0 otherwise). -/
def txnCmd : Event → ℕ
  | .txn _ c _ => c
  | _ => 0

/-- Command byte for a single-channel write, `zeroed.py` line 61:
`0b01011000 | (CHANNEL_MAP[channel] << 1)`. -/
def command_byte (c : Channel) : ℕ := 0b01011000 ||| (CHANNEL_MAP c <<< 1)

/-- Per-channel payload of `zeroed.py` lines 45-54: the full MSB formula
applied with `digital_value = 0`, and the zero LSB. -/
def zeroed_i2c_payload (ref gain : Bool) : List ℕ :=
  [data_msb ref gain 0, data_lsb 0]

/-- Channels for which `zeroed.py` lines 57-71 issue a write, given which
channels' writes succeed: the loop walks the order and `break`s right after
the first failing write. -/
def zeroedAttempts (f : Channel → Bool) : List Channel → List Channel
  | [] => []
  | c :: rest => if f c then c :: zeroedAttempts f rest else [c]

/-- Channel at a given position of the fixed visiting order. -/
def channelAt (k : Fin 4) : Channel :=
  match k.val with
  | 0 => .A
  | 1 => .B
  | 2 => .C
  | _ => .D

/-! ### Helper lemmas -/

theorem data_msb_testBit7 (ref gain : Bool) (dv : ℕ) :
    (data_msb ref gain dv).testBit 7 = ref := by
  have m_lt : dv / 256 % 16 < 16 := Nat.mod_lt _ (by norm_num)
  rw [data_msb_eq, Nat.testBit_to_div_mod]
  rcases ref with _ | _ <;> rcases gain with _ | _ <;>
    simp only [bit, decide_eq_true_eq, decide_eq_false_iff_not] <;> norm_num <;> omega

theorem data_msb_testBit6 (ref gain : Bool) (dv : ℕ) :
    (data_msb ref gain dv).testBit 6 = false := by
  have m_lt : dv / 256 % 16 < 16 := Nat.mod_lt _ (by norm_num)
  rw [data_msb_eq, Nat.testBit_to_div_mod]
  rcases ref with _ | _ <;> rcases gain with _ | _ <;>
    simp only [bit, decide_eq_true_eq, decide_eq_false_iff_not] <;> norm_num <;> omega

theorem data_msb_testBit5 (ref gain : Bool) (dv : ℕ) :
    (data_msb ref gain dv).testBit 5 = false := by
  have m_lt : dv / 256 % 16 < 16 := Nat.mod_lt _ (by norm_num)
  rw [data_msb_eq, Nat.testBit_to_div_mod]
  rcases ref with _ | _ <;> rcases gain with _ | _ <;>
    simp only [bit, decide_eq_true_eq, decide_eq_false_iff_not] <;> norm_num <;> omega

theorem data_msb_testBit4 (ref gain : Bool) (dv : ℕ) :
    (data_msb ref gain dv).testBit 4 = gain := by
  have m_lt : dv / 256 % 16 < 16 := Nat.mod_lt _ (by norm_num)
  rw [data_msb_eq, Nat.testBit_to_div_mod]
  rcases ref with _ | _ <;> rcases gain with _ | _ <;>
    simp only [bit, decide_eq_true_eq, decide_eq_false_iff_not] <;> norm_num <;> omega

theorem data_msb_and_15 (ref gain : Bool) (dv : ℕ) :
    data_msb ref gain dv &&& 15 = dv / 256 % 16 := by
  rw [data_msb_eq]
  have h := Nat.and_pow_two_sub_one_eq_mod
    (128 * bit ref + 16 * bit gain + dv / 256 % 16) 4
  norm_num at h
  rw [h]
  rcases ref with _ | _ <;> rcases gain with _ | _ <;> simp [bit] <;> omega

theorem decodeDv_data_msb (ref gain : Bool) {dv : ℕ} (h : dv < 4096) :
    decodeDv (data_msb ref gain dv) (data_lsb dv) = dv := by
  have h255 : data_lsb dv = dv % 256 := by
    have h := Nat.and_pow_two_sub_one_eq_mod dv 8
    norm_num at h
    exact h
  rw [decodeDv, h255, show (0xF : ℕ) = 15 from rfl, data_msb_and_15,
    Nat.mod_eq_of_lt (show dv / 256 < 16 by omega), Nat.shiftLeft_eq,
    mul_comm (dv / 256) (2 ^ 8),
    ← Nat.mul_add_lt_is_or (show dv % 256 < 2 ^ 8 by omega) (dv / 256)]
  omega

theorem data_msb_claim_form (ref gain : Bool) (dv : ℕ) :
    data_msb ref gain dv = bit ref <<< 7 ||| bit gain <<< 4 ||| (dv >>> 8 &&& 0xF) := by
  rcases ref with _ | _ <;> rcases gain with _ | _ <;>
    simp [data_msb, bit, Nat.zero_and, Nat.and_self, Nat.zero_shiftLeft,
      Nat.zero_or, Nat.or_zero]

theorem schedStep_running_false (ok : Bool) :
    schedStep (.running false) ok = .running false := by
  cases ok <;> rfl

theorem foldl_schedStep_running_false (l : List Bool) :
    l.foldl schedStep (.running false) = .running false := by
  induction l with
  | nil => rfl
  | cons a l ih => rw [List.foldl_cons, schedStep_running_false]; exact ih

theorem foldl_schedStep_faulted (l : List Bool) :
    l.foldl schedStep .faulted = .faulted := by
  induction l with
  | nil => rfl
  | cons a l ih => rw [List.foldl_cons]; exact ih

theorem v_ref_pos (vdd : ℝ) (ref gain : Bool) (h : 0 < vdd) :
    0 < v_ref vdd ref gain := by
  rcases ref with _ | _ <;> rcases gain with _ | _ <;> simp [v_ref] <;>
    first
    | exact h
    | norm_num

theorem clamped_mem (voltage : ℝ) {vref : ℝ} (h : 0 ≤ vref) :
    0 ≤ clampedVoltage voltage vref ∧ clampedVoltage voltage vref ≤ vref := by
  simp only [clampedVoltage]
  split_ifs <;> constructor <;> linarith

theorem clamped_eq_self {voltage vref : ℝ} (h0 : 0 ≤ voltage) (h1 : voltage ≤ vref) :
    clampedVoltage voltage vref = voltage := by
  simp only [clampedVoltage]
  split_ifs <;> linarith

theorem digital_value_eq_floor (voltage vdd : ℝ) (ref gain : Bool) (h : 0 < vdd) :
    digital_value voltage vdd ref gain =
      ⌊clampedVoltage voltage (v_ref vdd ref gain) / v_ref vdd ref gain * 4095⌋ := by
  have hv := v_ref_pos vdd ref gain h
  have hc := (clamped_mem voltage hv.le).1
  unfold digital_value pyInt
  rw [if_pos (mul_nonneg (div_nonneg hc hv.le) (by norm_num))]

theorem digital_value_bounds (voltage vdd : ℝ) (ref gain : Bool) (h : 0 < vdd) :
    0 ≤ digital_value voltage vdd ref gain ∧ digital_value voltage vdd ref gain ≤ 4095 := by
  have hv := v_ref_pos vdd ref gain h
  obtain ⟨hc0, hc1⟩ := clamped_mem voltage hv.le
  rw [digital_value_eq_floor voltage vdd ref gain h]
  have hx0 : 0 ≤ clampedVoltage voltage (v_ref vdd ref gain) / v_ref vdd ref gain * 4095 :=
    mul_nonneg (div_nonneg hc0 hv.le) (by norm_num)
  have hr1 : clampedVoltage voltage (v_ref vdd ref gain) / v_ref vdd ref gain ≤ 1 :=
    (div_le_one hv).mpr hc1
  have hx1 : clampedVoltage voltage (v_ref vdd ref gain) / v_ref vdd ref gain * 4095 ≤ 4095 := by
    nlinarith
  refine ⟨Int.floor_nonneg.mpr hx0, ?_⟩
  have hfl := Int.floor_le
    (clampedVoltage voltage (v_ref vdd ref gain) / v_ref vdd ref gain * 4095)
  have : ((⌊clampedVoltage voltage (v_ref vdd ref gain) / v_ref vdd ref gain * 4095⌋ : ℤ) : ℝ)
      ≤ 4095 := le_trans hfl hx1
  exact_mod_cast this

theorem digital_value_example : digital_value 5 5 false false = 4095 := by
  have h5 : v_ref (5 : ℝ) false false = 5 := by simp [v_ref]
  unfold digital_value
  rw [h5, clamped_eq_self (by norm_num) (by norm_num)]
  have hx : (5 : ℝ) / 5 * 4095 = ((4095 : ℤ) : ℝ) := by norm_num
  unfold pyInt
  rw [if_pos (by rw [hx]; norm_num), hx, Int.floor_intCast]

theorem loopEvents_txn_form (ts : ℕ → ℝ) (l : List Bool) :
    ∀ i fr e, e ∈ loopEvents ts l i fr →
      ∃ t, e = .txn MCP4728_ADDRESS SEQ_WRITE_COMMAND (i2c_payload t) := by
  induction l with
  | nil => intro i fr e he; simp [loopEvents] at he
  | cons a l ih =>
      intro i fr e he
      simp only [loopEvents, List.mem_cons] at he
      rcases he with rfl | he
      · exact ⟨ts i, rfl⟩
      · split at he
        · exact ih _ _ _ he
        · split at he
          · simp at he
          · exact ih _ _ _ he

theorem loopEvents_countP_busClose (ts : ℕ → ℝ) (l : List Bool) (i : ℕ) (fr : Bool) :
    (loopEvents ts l i fr).countP isBusClose = 0 := by
  rw [List.countP_eq_zero]
  intro e he
  obtain ⟨t, rfl⟩ := loopEvents_txn_form ts l i fr e he
  simp [isBusClose]

theorem report_not_mem_loopEvents (ts : ℕ → ℝ) (l : List Bool) (i : ℕ) (fr : Bool) :
    Event.report ∉ loopEvents ts l i fr := by
  intro he
  obtain ⟨t, ht⟩ := loopEvents_txn_form ts l i fr _ he
  simp at ht

theorem loopEvents_cmd_ok (ts : ℕ → ℝ) (l : List Bool) (i : ℕ) (fr : Bool) :
    ((loopEvents ts l i fr).all fun e =>
      !isTxn e || (txnAddr e == MCP4728_ADDRESS && txnCmd e == SEQ_WRITE_COMMAND)) = true := by
  rw [List.all_eq_true]
  intro e he
  obtain ⟨t, rfl⟩ := loopEvents_txn_form ts l i fr e he
  simp [isTxn, txnAddr, txnCmd]

/-! ### Claim theorems -/

/-- Claim C1: for every input voltage and setting pair, the register encoder
computes `vref = vdd` when the reference mode is off and
`2.048 * (2 if gain else 1)` otherwise, clamps the voltage into `[0, vref]`,
quantises it as `⌊voltage / vref * 4095⌋` yielding an integer in
`[0, 4095]`, packs the MSB as `(ref<<7) | (gain<<4) | ((dv>>8) & 0xF)` with
bits 6 and 5 zero and the LSB as `dv & 0xFF`; in particular
`encode 5 5 false false` yields digital value 4095, MSB `0x0F`, LSB `0xFF`. -/
theorem register_encoder_clamps_quantizes_packs (voltage vdd : ℝ) (ref gain : Bool)
    (h : 0 < vdd) :
    v_ref vdd ref gain = (if ref then 2.048 * (if gain then 2 else 1) else vdd) ∧
    0 ≤ clampedVoltage voltage (v_ref vdd ref gain) ∧
    clampedVoltage voltage (v_ref vdd ref gain) ≤ v_ref vdd ref gain ∧
    digital_value voltage vdd ref gain =
      ⌊clampedVoltage voltage (v_ref vdd ref gain) / v_ref vdd ref gain * 4095⌋ ∧
    0 ≤ digital_value voltage vdd ref gain ∧
    digital_value voltage vdd ref gain ≤ 4095 ∧
    (encode voltage vdd ref gain).1 =
      bit ref <<< 7 ||| bit gain <<< 4 |||
        ((digital_value voltage vdd ref gain).toNat >>> 8 &&& 0xF) ∧
    (encode voltage vdd ref gain).1.testBit 6 = false ∧
    (encode voltage vdd ref gain).1.testBit 5 = false ∧
    (encode voltage vdd ref gain).2 = (digital_value voltage vdd ref gain).toNat &&& 0xFF ∧
    digital_value 5 5 false false = 4095 ∧
    encode 5 5 false false = (0x0F, 0xFF) := by
  have hv := v_ref_pos vdd ref gain h
  obtain ⟨hc0, hc1⟩ := clamped_mem voltage hv.le
  obtain ⟨hd0, hd1⟩ := digital_value_bounds voltage vdd ref gain h
  have hex : encode 5 5 false false = (0x0F, 0xFF) := by
    unfold encode
    rw [digital_value_example]
    constructor
  exact ⟨rfl, hc0, hc1, digital_value_eq_floor voltage vdd ref gain h, hd0, hd1,
    data_msb_claim_form ref gain _, data_msb_testBit6 ref gain _,
    data_msb_testBit5 ref gain _, rfl, digital_value_example, hex⟩

/-- Witness for C1 at the concrete input `voltage = 5, vdd = 5`. -/
theorem register_encoder_clamps_quantizes_packs_w :
    (0 : ℝ) < 5 ∧ encode 5 5 false false = (0x0F, 0xFF) :=
  ⟨by norm_num,
    (register_encoder_clamps_quantizes_packs 5 5 false false
      (by norm_num)).2.2.2.2.2.2.2.2.2.2.2⟩

/-- Claim C2: in the scheduler's step relation the transition from `Running`
to the terminated `Faulted` state occurs exactly when the very first tick's
transaction fails; after a successful first tick the state is `running false`
forever, and a failure in that state leaves the state unchanged so the next
tick still executes. -/
theorem scheduler_faults_only_on_first_tick (outcomes rest : List Bool) :
    (runSched outcomes = .faulted ↔ outcomes.head? = some false) ∧
    runSched (true :: rest) = .running false ∧
    runSched (false :: rest) = .faulted ∧
    ∀ ok : Bool, schedStep (.running false) ok = .running false := by
  have htrue : ∀ l : List Bool, runSched (true :: l) = .running false := by
    intro l
    rw [runSched, List.foldl_cons, show schedStep (.running true) true = .running false from rfl]
    exact foldl_schedStep_running_false l
  have hfalse : ∀ l : List Bool, runSched (false :: l) = .faulted := by
    intro l
    rw [runSched, List.foldl_cons, show schedStep (.running true) false = .faulted from rfl]
    exact foldl_schedStep_faulted l
  refine ⟨?_, htrue rest, hfalse rest, schedStep_running_false⟩
  cases outcomes with
  | nil => simp [runSched]
  | cons a l =>
      cases a
      · simp [hfalse l]
      · simp [htrue l]

/-- Claim C3: for every `(referenceMode, gainMode)` setting the shutdown
handler builds an 8-byte payload in which each channel's MSB has a zero low
nibble but still carries the reference and gain bits, each LSB is zero, and
the handler issues exactly one transaction with it. -/
theorem shutdown_payload_zeroes_all_channels (ref gain ok : Bool) :
    zero_volt_payload ref gain =
      [shutdown_msb ref gain, 0, shutdown_msb ref gain, 0,
        shutdown_msb ref gain, 0, shutdown_msb ref gain, 0] ∧
    (zero_volt_payload ref gain).length = 8 ∧
    shutdown_msb ref gain &&& 0xF = 0 ∧
    (shutdown_msb ref gain).testBit 7 = ref ∧
    (shutdown_msb ref gain).testBit 4 = gain ∧
    (∀ b ∈ zero_volt_payload ref gain, b &&& 0xF = 0 ∨ b = 0) ∧
    (shutdownEvents ref gain ok).countP isTxn = 1 := by
  rcases ref with _ | _ <;> rcases gain with _ | _ <;> rcases ok with _ | _ <;> decide

/-- Claim C9: the shutdown handler's simplified per-channel zero encoding
`(VREF_MODE & 1) << 7 | (GAIN_MODE & 1) << 4` with LSB `0` is byte-for-byte
the full per-tick encoder applied with digital value 0 for the same
settings. -/
theorem shutdown_encoder_refines_tick_encoder (ref gain : Bool) :
    shutdown_msb ref gain = data_msb ref gain 0 ∧ (0 : ℕ) = data_lsb 0 := by
  rcases ref with _ | _ <;> rcases gain with _ | _ <;> decide

/-- Claim C4: for every setting pair and every voltage already clamped into
`[0, vref]`, decoding the byte pair produced by `encode` (bit 7 as the
reference mode, bit 4 as the gain mode, `((msb & 0xF) << 8) | lsb` as the
digital value) recovers the mode bits exactly and a digital value within one
LSB of `round (voltage / vref * 4095)`. -/
theorem encode_decode_roundtrip (voltage vdd : ℝ) (ref gain : Bool) (hvdd : 0 < vdd)
    (h0 : 0 ≤ voltage) (h1 : voltage ≤ v_ref vdd ref gain) :
    decodeRef (encode voltage vdd ref gain).1 = ref ∧
    decodeGain (encode voltage vdd ref gain).1 = gain ∧
    decodeDv (encode voltage vdd ref gain).1 (encode voltage vdd ref gain).2 =
      (digital_value voltage vdd ref gain).toNat ∧
    |(decodeDv (encode voltage vdd ref gain).1 (encode voltage vdd ref gain).2 : ℤ) -
      round (voltage / v_ref vdd ref gain * 4095)| ≤ 1 := by
  have hv := v_ref_pos vdd ref gain hvdd
  obtain ⟨hd0, hd1⟩ := digital_value_bounds voltage vdd ref gain hvdd
  have hlt : (digital_value voltage vdd ref gain).toNat < 4096 := by omega
  have h3 : decodeDv (encode voltage vdd ref gain).1 (encode voltage vdd ref gain).2 =
      (digital_value voltage vdd ref gain).toNat := by
    simp only [encode]
    exact decodeDv_data_msb ref gain hlt
  have hfloor : digital_value voltage vdd ref gain =
      ⌊voltage / v_ref vdd ref gain * 4095⌋ := by
    rw [digital_value_eq_floor voltage vdd ref gain hvdd, clamped_eq_self h0 h1]
  have hr0 : 0 ≤ voltage / v_ref vdd ref gain * 4095 :=
    mul_nonneg (div_nonneg h0 hv.le) (by norm_num)
  have hcast : ((digital_value voltage vdd ref gain).toNat : ℤ) =
      ⌊voltage / v_ref vdd ref gain * 4095⌋ := by
    rw [hfloor]
    exact Int.toNat_of_nonneg (Int.floor_nonneg.mpr hr0)
  refine ⟨?_, ?_, h3, ?_⟩
  · simp only [encode, decodeRef]
    exact data_msb_testBit7 ref gain _
  · simp only [encode, decodeGain]
    exact data_msb_testBit4 ref gain _
  · rw [h3, hcast, round_eq]
    have hA : ⌊voltage / v_ref vdd ref gain * 4095⌋ ≤
        ⌊voltage / v_ref vdd ref gain * 4095 + 1 / 2⌋ :=
      Int.floor_le_floor (by linarith)
    have hB : ⌊voltage / v_ref vdd ref gain * 4095 + 1 / 2⌋ ≤
        ⌊voltage / v_ref vdd ref gain * 4095⌋ + 1 := by
      have h2 : ⌊voltage / v_ref vdd ref gain * 4095 + 1 / 2⌋ ≤
          ⌊voltage / v_ref vdd ref gain * 4095 + 1⌋ :=
        Int.floor_le_floor (by linarith)
      rwa [Int.floor_add_one] at h2
    rw [abs_le]
    omega

/-- Witness for C4 at the concrete input `voltage = 0, vdd = 5`. -/
theorem encode_decode_roundtrip_w :
    decodeRef (encode 0 5 false false).1 = false ∧
    decodeGain (encode 0 5 false false).1 = false ∧
    decodeDv (encode 0 5 false false).1 (encode 0 5 false false).2 =
      (digital_value 0 5 false false).toNat ∧
    |(decodeDv (encode 0 5 false false).1 (encode 0 5 false false).2 : ℤ) -
      round ((0 : ℝ) / v_ref 5 false false * 4095)| ≤ 1 :=
  encode_decode_roundtrip 0 5 false false (by norm_num) (by norm_num)
    (by norm_num [v_ref])

/-- Claim C5: the waveform sample is
`amplitude * sin (2 π frequency t) + offset` with
`amplitude = offset = vdd / 2`, so a zero frequency yields the constant
`offset` (2.5 when `vdd = 5`), and the sample always lies in `[0, vdd]`. -/
theorem waveform_sample_range_and_zero_freq (frequency t vdd : ℝ) (h : 0 ≤ vdd) :
    sample frequency t vdd =
      vdd / 2 * Real.sin (2 * Real.pi * frequency * t) + vdd / 2 ∧
    sample 0 t vdd = vdd / 2 ∧
    sample 0 t 5 = 2.5 ∧
    0 ≤ sample frequency t vdd ∧ sample frequency t vdd ≤ vdd := by
  have hs1 := Real.sin_le_one (2 * Real.pi * frequency * t)
  have hs2 := Real.neg_one_le_sin (2 * Real.pi * frequency * t)
  refine ⟨rfl, by simp [sample], by norm_num [sample], ?_, ?_⟩
  · unfold sample
    nlinarith
  · unfold sample
    nlinarith

/-- Witness for C5 at the concrete input `frequency = 0, t = 0, vdd = 5`. -/
theorem waveform_sample_range_and_zero_freq_w :
    (0 : ℝ) ≤ 5 ∧
    (sample 0 0 5 = 5 / 2 * Real.sin (2 * Real.pi * 0 * 0) + 5 / 2 ∧
      sample 0 0 5 = 5 / 2 ∧
      sample 0 0 5 = 2.5 ∧
      0 ≤ sample 0 0 5 ∧ sample 0 0 5 ≤ 5) :=
  ⟨by norm_num, waveform_sample_range_and_zero_freq 0 0 5 (by norm_num)⟩

/-- Claim C6: on every exit path (normal stop, first-tick fault, external
interruption) the trace ends with releasing the bus handle, the handle is
released exactly once, exactly one best-effort shutdown transaction is
issued, and a failed shutdown write is reported rather than escalated. -/
theorem every_exit_path_releases_bus (ts : ℕ → ℝ) (outcomes : List Bool)
    (ref gain ok : Bool) :
    (mainTrace ts outcomes ref gain ok).getLast? = some .busClose ∧
    (mainTrace ts outcomes ref gain ok).countP isBusClose = 1 ∧
    (shutdownEvents ref gain ok).countP isTxn = 1 ∧
    (ok = false → Event.report ∈ mainTrace ts outcomes ref gain ok) := by
  refine ⟨?_, ?_, ?_, ?_⟩
  · rw [mainTrace, List.getLast?_append]
    rcases ok with _ | _ <;> simp [shutdownEvents]
  · rw [mainTrace, List.countP_append, loopEvents_countP_busClose]
    rcases ok with _ | _ <;> simp [shutdownEvents, List.countP_cons, isBusClose]
  · rcases ok with _ | _ <;> simp [shutdownEvents, List.countP_cons, isTxn]
  · intro hok
    subst hok
    rw [mainTrace]
    simp [shutdownEvents]

/-- Witness for C6: with a failing shutdown write on an empty run the report
is in the trace and the trace still ends by releasing the bus handle. -/
theorem every_exit_path_releases_bus_w :
    Event.report ∈ mainTrace (fun _ => 0) [] false false false ∧
    (mainTrace (fun _ => 0) [] false false false).getLast? = some .busClose :=
  ⟨(every_exit_path_releases_bus (fun _ => 0) [] false false false).2.2.2 rfl,
    (every_exit_path_releases_bus (fun _ => 0) [] false false false).1⟩

/-- Claim C7: every tick transaction and the shutdown transaction use the
sequential-write command byte `0b01000000` at device address `0x60`, and each
single-channel write command byte matches the template `0b0101_1CC0` with
`CC` the channel's 2-bit selector. -/
theorem command_bytes_match_protocol (ts : ℕ → ℝ) (outcomes : List Bool)
    (ref gain ok : Bool) :
    SEQ_WRITE_COMMAND = 0b01000000 ∧
    MCP4728_ADDRESS = 0x60 ∧
    (∀ c : Channel,
      command_byte c = 0b01011000 ||| (CHANNEL_MAP c <<< 1) ∧
      command_byte c >>> 3 = 0b01011 ∧
      command_byte c &&& 1 = 0 ∧
      command_byte c >>> 1 &&& 0b11 = CHANNEL_MAP c) ∧
    ((mainTrace ts outcomes ref gain ok).all fun e =>
      !isTxn e || (txnAddr e == MCP4728_ADDRESS && txnCmd e == SEQ_WRITE_COMMAND)) = true := by
  refine ⟨rfl, rfl, ?_, ?_⟩
  · intro c
    cases c <;> exact ⟨rfl, by decide, by decide, by decide⟩
  · rw [mainTrace, List.all_append, loopEvents_cmd_ok]
    rcases ok with _ | _ <;> simp [shutdownEvents, isTxn, txnAddr, txnCmd]

/-- Claim C8: every tick's payload is built by visiting the four channels in
the fixed order A, B, C, D, appending exactly two bytes per channel, so the
payload of the single transaction always has exactly eight bytes. -/
theorem tick_payload_eight_bytes_fixed_order (t : ℝ) :
    i2c_payload t =
      tick_bytes .A t ++ tick_bytes .B t ++ tick_bytes .C t ++ tick_bytes .D t ∧
    (i2c_payload t).length = 8 ∧
    ∀ c : Channel, (tick_bytes c t).length = 2 := by
  refine ⟨?_, ?_, fun c => by cases c <;> rfl⟩
  · simp [i2c_payload, channel_order, tick_bytes]
  · simp [i2c_payload, channel_order, tick_bytes]

/-- Claim C10: in the single-channel zeroing utility, if the write for the
channel at position `k` of the order A, B, C, D fails while all earlier
writes succeed, the loop stops right after it: the issued writes are exactly
the first `k + 1` channels and no channel after position `k` is written. -/
theorem zeroed_stops_after_first_failure (f : Channel → Bool) (k : Fin 4)
    (hfail : f (channelAt k) = false)
    (hok : ∀ j : Fin 4, j < k → f (channelAt j) = true) :
    zeroedAttempts f channel_order = channel_order.take (k.val + 1) ∧
    ∀ m : Fin 4, k < m → channelAt m ∉ zeroedAttempts f channel_order := by
  fin_cases k
  · have hA : f .A = false := hfail
    have hlist : zeroedAttempts f channel_order = [.A] := by
      simp [zeroedAttempts, channel_order, hA]
    rw [hlist]
    refine ⟨rfl, ?_⟩
    intro m hm
    fin_cases m <;>
      first
      | exact absurd hm (by decide)
      | decide
  · have hA : f .A = true := hok 0 (by decide)
    have hB : f .B = false := hfail
    have hlist : zeroedAttempts f channel_order = [.A, .B] := by
      simp [zeroedAttempts, channel_order, hA, hB]
    rw [hlist]
    refine ⟨rfl, ?_⟩
    intro m hm
    fin_cases m <;>
      first
      | exact absurd hm (by decide)
      | decide
  · have hA : f .A = true := hok 0 (by decide)
    have hB : f .B = true := hok 1 (by decide)
    have hC : f .C = false := hfail
    have hlist : zeroedAttempts f channel_order = [.A, .B, .C] := by
      simp [zeroedAttempts, channel_order, hA, hB, hC]
    rw [hlist]
    refine ⟨rfl, ?_⟩
    intro m hm
    fin_cases m <;>
      first
      | exact absurd hm (by decide)
      | decide
  · have hA : f .A = true := hok 0 (by decide)
    have hB : f .B = true := hok 1 (by decide)
    have hC : f .C = true := hok 2 (by decide)
    have hD : f .D = false := hfail
    have hlist : zeroedAttempts f channel_order = [.A, .B, .C, .D] := by
      simp [zeroedAttempts, channel_order, hA, hB, hC, hD]
    rw [hlist]
    refine ⟨rfl, ?_⟩
    intro m hm
    fin_cases m <;> exact absurd hm (by decide)

/-- Witness for C10: when only channel A's write succeeds, the run issues
writes for A and B only. -/
theorem zeroed_stops_after_first_failure_w :
    zeroedAttempts (fun c => c == Channel.A) channel_order =
      channel_order.take ((1 : Fin 4).val + 1) ∧
    ∀ m : Fin 4, (1 : Fin 4) < m →
      channelAt m ∉ zeroedAttempts (fun c => c == Channel.A) channel_order :=
  zeroed_stops_after_first_failure (fun c => c == Channel.A) 1 (by decide) (by decide)

end WheelchairDAC
